import Mathlib

/-!
Shallow embedding of the baiser curve library: Bezier segments of degree
0-3, the adaptive arc-length estimator, the smooth lookup table, the
linear-speed reparameterizer and the composed curve, translated from
src/{bezier,smooth_array,linear_speed,composed_curve,distance,point}.rs.
The crate's scalar point instances (`impl Point for f64` with
`distance = |a - b|`) are modelled exactly over ℚ; the generic point
type of the Bezier evaluators is modelled by an arbitrary ℚ-module.
Fallible operations (slice indexing, `unwrap`, `clamp` with an inverted
range) additionally get `checked` variants returning `Option`, used for
the panic-freedom claims.
-/

namespace Baiser

/-- Scalar distance from src/distance.rs: `(self - other).abs()`. -/
def distQ (a b : ℚ) : ℚ := |a - b|

/-- Rust `clamp(lo, hi)`, total model (`checkedClamp` models the panic
on an inverted range). -/
def rclamp (x lo hi : ℚ) : ℚ := min (max x lo) hi

/-- Rust float `trunc` (round toward zero). -/
def ratTrunc (q : ℚ) : ℚ := if q < 0 then (⌈q⌉ : ℚ) else (⌊q⌋ : ℚ)

/-- Rust float `fract`: `self - self.trunc()`. -/
def ratFract (q : ℚ) : ℚ := q - ratTrunc q

/-- num-traits `to_usize().unwrap()` on a float: truncation, total model
(only used where the argument is provably nonnegative; `checkedRatToUsize`
models the `unwrap` panic on a negative argument). -/
def ratToUsize (q : ℚ) : ℕ := ⌊q⌋.toNat

/-- `SmoothArray` from src/smooth_array.rs: a fixed-size array of scalar
samples representing a piecewise-linear function on [0,1]. -/
structure SmoothArray where
  data : List ℚ

/-- `SmoothArray::with_steps_count`: `steps_count` samples, all zero. -/
def SmoothArray.with_steps_count (steps_count : ℕ) : SmoothArray :=
  ⟨List.replicate steps_count 0⟩

/-- `SmoothArray::len` (returns the length as a scalar). -/
def SmoothArray.len (sa : SmoothArray) : ℚ := (sa.data.length : ℚ)

/-- `SmoothArray::last_index`: `len - 1`. -/
def SmoothArray.last_index (sa : SmoothArray) : ℚ := sa.len - 1

/-- `SmoothArray::to_array_index`: `index * last_index`. -/
def SmoothArray.to_array_index (sa : SmoothArray) (index : ℚ) : ℚ :=
  index * sa.last_index

/-- `SmoothArray::value_at_scaled_index`: clamp to `[0, last_index]`,
then linearly interpolate between the two bracketing integer samples. -/
def SmoothArray.value_at_scaled_index (sa : SmoothArray) (i : ℚ) : ℚ :=
  let i := rclamp i 0 sa.last_index
  let f := ratFract i
  let i1 := ratToUsize (⌊i⌋ : ℚ)
  let i2 := ratToUsize (⌈i⌉ : ℚ)
  let v1 := sa.data.getD i1 0
  let v2 := sa.data.getD i2 0
  v1 + (v2 - v1) * f

/-- `SmoothArray::value_at`. -/
def SmoothArray.value_at (sa : SmoothArray) (index : ℚ) : ℚ :=
  sa.value_at_scaled_index (sa.to_array_index index)

/-- `SmoothArray::tangent_at`: finite-difference derivative, normalized
back into position-space units. -/
def SmoothArray.tangent_at (sa : SmoothArray) (index : ℚ) : ℚ :=
  let i := sa.to_array_index index
  let i1 := max (i - 1) 0
  let i2 := min (i + 1) sa.last_index
  let v1 := sa.value_at_scaled_index i1
  let v2 := sa.value_at_scaled_index i2
  let dl := (i2 - i1) / sa.last_index
  (v2 - v1) / dl

/-- The `while i <= max_i` loop inside `SmoothArray::line`: starting at
index `i` (an integer value), write the interpolated value and step by
one while `i ≤ max_i`.  The loop is given fuel; running out of fuel
returns the data unchanged, which coincides with the loop exit (the
lemmas only use the loop with enough fuel for it to exit on its own). -/
def SmoothArray.lineLoop (v1 v2 i1 idi max_i : ℚ) :
    ℕ → ℚ → List ℚ → List ℚ
  | 0, _, data => data
  | fuel+1, i, data =>
    if i ≤ max_i then
      let f := (i - i1) * idi
      let v := v1 * (1 - f) + v2 * f
      SmoothArray.lineLoop v1 v2 i1 idi max_i fuel (i + 1)
        (data.set (ratToUsize i) v)
    else data

/-- `SmoothArray::line((i1, v1), (i2, v2))`: map the normalized positions
to array indices, then write the linear interpolation into every integer
index from `ceil(i1 * last_index)` up to `max(i2 * last_index, len - 1)`. -/
def SmoothArray.line (sa : SmoothArray) (a b : ℚ × ℚ) : SmoothArray :=
  let i1 := sa.to_array_index a.1
  let i2 := sa.to_array_index b.1
  let idi := 1 / (i2 - i1)
  let max_i := max i2 (sa.len - 1)
  ⟨SmoothArray.lineLoop a.2 b.2 i1 idi max_i (sa.data.length + 1) (⌈i1⌉ : ℚ) sa.data⟩

/-- `Bezier0`: a single point (src/bezier.rs). -/
structure Bezier0 (P : Type) where
  point : P

/-- `Bezier1`: a line (src/bezier.rs). -/
structure Bezier1 (P : Type) where
  p0 : P
  p1 : P

/-- `Bezier2`: a quadratic bezier curve (src/bezier.rs). -/
structure Bezier2 (P : Type) where
  p0 : P
  p1 : P
  p2 : P

/-- `Bezier3`: a cubic bezier curve (src/bezier.rs). -/
structure Bezier3 (P : Type) where
  p0 : P
  p1 : P
  p2 : P
  p3 : P

/-- The degree-tagged `Bezier` enum (src/bezier.rs). -/
inductive Bezier (P : Type) where
  | C0 (b : Bezier0 P)
  | C1 (b : Bezier1 P)
  | C2 (b : Bezier2 P)
  | C3 (b : Bezier3 P)

/-- `Bezier0::value_at`: the stored point, regardless of `t`. -/
def Bezier0.value_at {P : Type} (b : Bezier0 P) (_t : ℚ) : P := b.point

/-- `Bezier0::tangent_at`: `point.scale(0)`. -/
def Bezier0.tangent_at {P : Type} [AddCommGroup P] [Module ℚ P]
    (b : Bezier0 P) (_t : ℚ) : P := (0 : ℚ) • b.point

/-- `Bezier0::start_point`. -/
def Bezier0.start_point {P : Type} (b : Bezier0 P) : P := b.point

/-- `Bezier0::end_point`. -/
def Bezier0.end_point {P : Type} (b : Bezier0 P) : P := b.point

/-- `Bezier1::value_at`: `p0.add(p1.sub(p0).scale(t))`. -/
def Bezier1.value_at {P : Type} [AddCommGroup P] [Module ℚ P]
    (b : Bezier1 P) (t : ℚ) : P :=
  b.p0 + t • (b.p1 - b.p0)

/-- `Bezier1::tangent_at`: `p1.sub(p0)`, independent of `t`. -/
def Bezier1.tangent_at {P : Type} [AddCommGroup P] [Module ℚ P]
    (b : Bezier1 P) (_t : ℚ) : P := b.p1 - b.p0

/-- `Bezier1::start_point`. -/
def Bezier1.start_point {P : Type} (b : Bezier1 P) : P := b.p0

/-- `Bezier1::end_point`. -/
def Bezier1.end_point {P : Type} (b : Bezier1 P) : P := b.p1

/-- `Bezier1::estimate_length`: the chord distance, for the crate's scalar
point instance. -/
def Bezier1.estimate_length (b : Bezier1 ℚ) (_precision : ℚ) : ℚ :=
  distQ b.p0 b.p1

/-- `Bezier2::value_at` in Bernstein form, with the source's association:
`p0.scale(t12).add(p1.scale(two*t1*t)).add(p2.scale(t2))`. -/
def Bezier2.value_at {P : Type} [AddCommGroup P] [Module ℚ P]
    (b : Bezier2 P) (t : ℚ) : P :=
  let t2 := t * t
  let t1 := 1 - t
  let t12 := t1 * t1
  let two : ℚ := 1 + 1
  t12 • b.p0 + (two * t1 * t) • b.p1 + t2 • b.p2

/-- `Bezier2::tangent_at`. -/
def Bezier2.tangent_at {P : Type} [AddCommGroup P] [Module ℚ P]
    (b : Bezier2 P) (t : ℚ) : P :=
  let two : ℚ := 1 + 1
  let t2 := t + t
  let nt2 := two - t2
  let v1 := nt2 • (b.p1 - b.p0)
  let v2 := t2 • (b.p2 - b.p1)
  v1 + v2

/-- `Bezier2::start_point`. -/
def Bezier2.start_point {P : Type} (b : Bezier2 P) : P := b.p0

/-- `Bezier2::end_point`. -/
def Bezier2.end_point {P : Type} (b : Bezier2 P) : P := b.p2

/-- The de Casteljau midpoint subdivision performed inside
`Bezier2::estimate_length` (src/bezier.rs lines 270-275): produces the two
same-degree halves `b1 = (p0, m01, m)` and `b2 = (m, m12, p2)`. -/
def Bezier2.subdivide {P : Type} [AddCommGroup P] [Module ℚ P]
    (b : Bezier2 P) : Bezier2 P × Bezier2 P :=
  let half : ℚ := 1 / (1 + 1)
  let m01 := half • (b.p0 + b.p1)
  let m12 := half • (b.p1 + b.p2)
  let m := half • (m01 + m12)
  (⟨b.p0, m01, m⟩, ⟨m, m12, b.p2⟩)

/-- `Bezier2::estimate_length` for the crate's scalar point instance,
with explicit recursion fuel (the Rust recursion has no structural
measure; every claim about it is stated with enough fuel for the
branches it exercises).  Note the source computes
`min = p0.distance(p1)`, the distance to the *second* control point. -/
def Bezier2.estimate_length : ℕ → Bezier2 ℚ → ℚ → ℚ
  | 0, _, _ => 0
  | fuel+1, b, precision =>
    let mn := distQ b.p0 b.p1
    let mx := distQ b.p0 b.p1 + distQ b.p1 b.p2
    let half : ℚ := 1 / (1 + 1)
    if mx = 0 then 0
    else if (mx - mn) / mx < precision then (mn + mx) * half
    else
      let s := Bezier2.subdivide b
      Bezier2.estimate_length fuel s.1 precision +
        Bezier2.estimate_length fuel s.2 precision

/-- `Bezier3::value_at` in Bernstein form, with the source's association. -/
def Bezier3.value_at {P : Type} [AddCommGroup P] [Module ℚ P]
    (b : Bezier3 P) (t : ℚ) : P :=
  let three : ℚ := 1 + 1 + 1
  let t2 := t * t
  let t3 := t2 * t
  let nt := 1 - t
  let nt2 := nt * nt
  let nt3 := nt2 * nt
  nt3 • b.p0 + (three * nt2 * t) • b.p1 + ((three * nt * t2) • b.p2 + t3 • b.p3)

/-- `Bezier3::tangent_at`. -/
def Bezier3.tangent_at {P : Type} [AddCommGroup P] [Module ℚ P]
    (b : Bezier3 P) (t : ℚ) : P :=
  let three : ℚ := 1 + 1 + 1
  let six := three + three
  let t2 := t * t
  let nt := 1 - t
  let nt2 := nt * nt
  let v1 := (three * nt2) • (b.p1 - b.p0)
  let v2 := (six * nt * t) • (b.p2 - b.p1)
  let v3 := (three * t2) • (b.p3 - b.p2)
  v1 + v2 + v3

/-- `Bezier3::start_point`. -/
def Bezier3.start_point {P : Type} (b : Bezier3 P) : P := b.p0

/-- `Bezier3::end_point`. -/
def Bezier3.end_point {P : Type} (b : Bezier3 P) : P := b.p3

/-- The de Casteljau midpoint subdivision performed inside
`Bezier3::estimate_length` (src/bezier.rs lines 347-355). -/
def Bezier3.subdivide {P : Type} [AddCommGroup P] [Module ℚ P]
    (b : Bezier3 P) : Bezier3 P × Bezier3 P :=
  let half : ℚ := 1 / (1 + 1)
  let m01 := half • (b.p0 + b.p1)
  let m12 := half • (b.p1 + b.p2)
  let m23 := half • (b.p2 + b.p3)
  let m012 := half • (m01 + m12)
  let m123 := half • (m12 + m23)
  let m := half • (m012 + m123)
  (⟨b.p0, m01, m012, m⟩, ⟨m, m123, m23, b.p3⟩)

/-- `Bezier3::estimate_length` for the crate's scalar point instance,
with explicit recursion fuel.  Here `min = p0.distance(p3)` is the
first-to-last distance, unlike the quadratic case. -/
def Bezier3.estimate_length : ℕ → Bezier3 ℚ → ℚ → ℚ
  | 0, _, _ => 0
  | fuel+1, b, precision =>
    let mn := distQ b.p0 b.p3
    let mx := distQ b.p0 b.p1 + distQ b.p1 b.p2 + distQ b.p2 b.p3
    let half : ℚ := 1 / (1 + 1)
    if mx = 0 then 0
    else if (mx - mn) / mx < precision then (mn + mx) * half
    else
      let s := Bezier3.subdivide b
      Bezier3.estimate_length fuel s.1 precision +
        Bezier3.estimate_length fuel s.2 precision

/-- `Bezier::value_at`: dispatch to the wrapped segment. -/
def Bezier.value_at {P : Type} [AddCommGroup P] [Module ℚ P]
    (b : Bezier P) (t : ℚ) : P :=
  match b with
  | .C0 c => c.value_at t
  | .C1 c => c.value_at t
  | .C2 c => c.value_at t
  | .C3 c => c.value_at t

/-- `Bezier::tangent_at`: dispatch to the wrapped segment. -/
def Bezier.tangent_at {P : Type} [AddCommGroup P] [Module ℚ P]
    (b : Bezier P) (t : ℚ) : P :=
  match b with
  | .C0 c => c.tangent_at t
  | .C1 c => c.tangent_at t
  | .C2 c => c.tangent_at t
  | .C3 c => c.tangent_at t

/-- `Bezier::start_point`: dispatch to the wrapped segment. -/
def Bezier.start_point {P : Type} (b : Bezier P) : P :=
  match b with
  | .C0 c => c.start_point
  | .C1 c => c.start_point
  | .C2 c => c.start_point
  | .C3 c => c.start_point

/-- `Bezier::end_point`: dispatch to the wrapped segment. -/
def Bezier.end_point {P : Type} (b : Bezier P) : P :=
  match b with
  | .C0 c => c.end_point
  | .C1 c => c.end_point
  | .C2 c => c.end_point
  | .C3 c => c.end_point

/-- The capability an inner curve offers to `LinearSpeed` (the `Curve`
trait operations it actually consumes, over the crate's scalar point
instance): position and tangent as functions of `t`. -/
structure CurveOps where
  value_at : ℚ → ℚ
  tangent_at : ℚ → ℚ

/-- The `Curve` impl of `Bezier1` over the crate's scalar point instance,
packaged for use as a `LinearSpeed` inner curve. -/
def Bezier1.curveOps (b : Bezier1 ℚ) : CurveOps :=
  ⟨b.value_at, b.tangent_at⟩

/-- The `Curve` impl of `Bezier2` over the crate's scalar point instance,
packaged for use as a `LinearSpeed` inner curve. -/
def Bezier2.curveOps (b : Bezier2 ℚ) : CurveOps :=
  ⟨b.value_at, b.tangent_at⟩

/-- `LinearSpeed` (src/linear_speed.rs): the wrapped curve, the cached
total length, and the lookup table. -/
structure LinearSpeed where
  curve : CurveOps
  length : ℚ
  table : SmoothArray

/-- One iteration of the sampling loop in `LinearSpeed::new`
(src/linear_speed.rs lines 26-34): the state is
`(t_by_offset, total_length, last_point)`. -/
def lsStep (c : ℚ → ℚ) (inverted_steps : ℚ)
    (acc : List (ℚ × ℚ) × ℚ × ℚ) (i : ℕ) : List (ℚ × ℚ) × ℚ × ℚ :=
  let t : ℚ := (i : ℚ) * inverted_steps
  let point := c t
  let segment_length := distQ acc.2.2 point
  let total_length := acc.2.1 + segment_length
  (acc.1 ++ [(total_length, t)], total_length, point)

/-- The `t_by_offset.windows(2).for_each(...)` pass of `LinearSpeed::new`
(lines 37-44): insert one table line per consecutive pair of recorded
`(offset, t)` points, with offsets normalized by `inverted_length`. -/
def insertLines (inverted_length : ℚ) :
    SmoothArray → List (ℚ × ℚ) → SmoothArray
  | table, a :: b :: rest =>
    insertLines inverted_length
      (table.line (a.1 * inverted_length, a.2) (b.1 * inverted_length, b.2))
      (b :: rest)
  | table, _ => table

/-- `LinearSpeed::new(curve, table_size, steps_count)`: sample the curve at
`steps_count + 1` uniform parameters, accumulate chord distances, insert
normalized `(distance, t)` lines into the table, cache the total length. -/
def LinearSpeed.new (curve : CurveOps) (table_size steps_count : ℕ) :
    LinearSpeed :=
  let table := SmoothArray.with_steps_count table_size
  let inverted_steps : ℚ := 1 / (steps_count : ℚ)
  let r := (List.range' 1 steps_count).foldl (lsStep curve.value_at inverted_steps)
    ([(0, 0)], 0, curve.value_at 0)
  let total_length := r.2.1
  let inverted_length : ℚ := 1 / total_length
  { curve := curve
    length := total_length
    table := insertLines inverted_length table r.1 }

/-- `LinearSpeed::value_at`: delegates to the inner curve. -/
def LinearSpeed.value_at (ls : LinearSpeed) (t : ℚ) : ℚ :=
  ls.curve.value_at t

/-- `LinearSpeed::tangent_at`: clamp `t` to `[0,1]`, look up
`t' = table.value_at(t)`, return the inner tangent at `t'` scaled by
`table.tangent_at(t')`. -/
def LinearSpeed.tangent_at (ls : LinearSpeed) (t : ℚ) : ℚ :=
  let t := rclamp t 0 1
  let t := ls.table.value_at t
  ls.curve.tangent_at t * ls.table.tangent_at t

/-- `LinearSpeed::estimate_length`: the cached length, ignoring the
precision argument. -/
def LinearSpeed.estimate_length (ls : LinearSpeed) (_precision : ℚ) : ℚ :=
  ls.length

/-- `ComposedCurve` (src/composed_curve.rs). -/
structure ComposedCurve (P : Type) where
  last_point : P
  curves : List (Bezier P)

/-- `ComposedCurve::new`. -/
def ComposedCurve.new {P : Type} (start_point : P) : ComposedCurve P :=
  ⟨start_point, []⟩

/-- `ComposedCurve::line_to`: appends a `Bezier1` from `last_point`,
unless the target equals `last_point`. -/
def ComposedCurve.line_to {P : Type} [DecidableEq P]
    (cc : ComposedCurve P) (point : P) : ComposedCurve P :=
  if point ≠ cc.last_point then
    ⟨point, cc.curves ++ [Bezier.C1 ⟨cc.last_point, point⟩]⟩
  else cc

/-- `ComposedCurve::quadratic_to`. -/
def ComposedCurve.quadratic_to {P : Type} [DecidableEq P]
    (cc : ComposedCurve P) (p1 p2 : P) : ComposedCurve P :=
  if p1 = p2 ∧ p1 = cc.last_point then cc
  else ⟨p2, cc.curves ++ [Bezier.C2 ⟨cc.last_point, p1, p2⟩]⟩

/-- `ComposedCurve::cubic_to`. -/
def ComposedCurve.cubic_to {P : Type} [DecidableEq P]
    (cc : ComposedCurve P) (p1 p2 p3 : P) : ComposedCurve P :=
  if p1 = p2 ∧ p2 = p3 ∧ p1 = cc.last_point then cc
  else ⟨p3, cc.curves ++ [Bezier.C3 ⟨cc.last_point, p1, p2, p3⟩]⟩

/-- `ComposedCurve::close`: `line_to` the first segment's start point,
when any segment exists. -/
def ComposedCurve.close {P : Type} [DecidableEq P]
    (cc : ComposedCurve P) : ComposedCurve P :=
  match cc.curves with
  | [] => cc
  | first :: _ => cc.line_to first.start_point

/-- One call of the `ComposedCurve` builder API, for stating the
connectivity invariant over arbitrary call sequences. -/
inductive PathOp (P : Type) where
  | lineTo (p : P)
  | quadraticTo (p1 p2 : P)
  | cubicTo (p1 p2 p3 : P)
  | closePath

/-- Apply one builder call. -/
def ComposedCurve.applyOp {P : Type} [DecidableEq P]
    (cc : ComposedCurve P) : PathOp P → ComposedCurve P
  | .lineTo p => cc.line_to p
  | .quadraticTo p1 p2 => cc.quadratic_to p1 p2
  | .cubicTo p1 p2 p3 => cc.cubic_to p1 p2 p3
  | .closePath => cc.close

/-- Run a sequence of builder calls from `ComposedCurve::new(start)`. -/
def ComposedCurve.runOps {P : Type} [DecidableEq P]
    (start : P) (ops : List (PathOp P)) : ComposedCurve P :=
  ops.foldl ComposedCurve.applyOp (ComposedCurve.new start)

/-- The segment list is a connected chain starting at `p`: each segment
starts where the previous one ended. -/
def isChainFrom {P : Type} (p : P) : List (Bezier P) → Prop
  | [] => True
  | c :: rest => c.start_point = p ∧ isChainFrom c.end_point rest

/-- End point of a connected chain started at `p` (its start point when
the chain is empty). -/
def chainEnd {P : Type} (p : P) : List (Bezier P) → P
  | [] => p
  | c :: rest => chainEnd c.end_point rest

/-- `Bezier0::estimate_length`: zero. -/
def Bezier0.estimate_length (_b : Bezier0 ℚ) (_precision : ℚ) : ℚ := 0

/-- `Bezier::estimate_length`: dispatch to the wrapped segment (fuel as in
the degree-2/3 estimators). -/
def Bezier.estimate_length (fuel : ℕ) (b : Bezier ℚ) (precision : ℚ) : ℚ :=
  match b with
  | .C0 c => c.estimate_length precision
  | .C1 c => c.estimate_length precision
  | .C2 c => Bezier2.estimate_length fuel c precision
  | .C3 c => Bezier3.estimate_length fuel c precision

/-- `ComposedCurve::estimate_length`: fold of the segment estimates. -/
def ComposedCurve.estimate_length (fuel : ℕ) (cc : ComposedCurve ℚ)
    (precision : ℚ) : ℚ :=
  cc.curves.foldl (fun acc curve => acc + curve.estimate_length fuel precision) 0

/-- Rust `clamp(lo, hi)` with its `assert!(lo <= hi)`: `none` models the
panic on an inverted range. -/
def checkedClamp (x lo hi : ℚ) : Option ℚ :=
  if lo ≤ hi then some (min (max x lo) hi) else none

/-- num-traits `to_usize()` followed by `unwrap()`: truncation toward
zero; `none` models the `unwrap` panic when the value is not
representable (negative). -/
def checkedRatToUsize (q : ℚ) : Option ℕ :=
  if (-1 : ℚ) < q then some ⌊q⌋.toNat else none

/-- Slice write `data[i] = v` with the bounds check made explicit:
`none` models the index-out-of-bounds panic. -/
def checkedSet (data : List ℚ) (i : ℕ) (v : ℚ) : Option (List ℚ) :=
  if i < data.length then some (data.set i v) else none

/-- `SmoothArray::value_at_scaled_index` with every fallible step
(`clamp`, `to_usize().unwrap()`, slice reads) made explicit. -/
def SmoothArray.checkedValueAtScaledIndex (sa : SmoothArray) (i : ℚ) :
    Option ℚ := do
  let i ← checkedClamp i 0 sa.last_index
  let i1 ← checkedRatToUsize (⌊i⌋ : ℚ)
  let i2 ← checkedRatToUsize (⌈i⌉ : ℚ)
  let v1 ← sa.data.get? i1
  let v2 ← sa.data.get? i2
  some (v1 + (v2 - v1) * ratFract i)

/-- `SmoothArray::value_at`, checked. -/
def SmoothArray.checkedValueAt (sa : SmoothArray) (index : ℚ) : Option ℚ :=
  sa.checkedValueAtScaledIndex (sa.to_array_index index)

/-- `SmoothArray::tangent_at`, checked. -/
def SmoothArray.checkedTangentAt (sa : SmoothArray) (index : ℚ) :
    Option ℚ := do
  let i := sa.to_array_index index
  let i1 := max (i - 1) 0
  let i2 := min (i + 1) sa.last_index
  let v1 ← sa.checkedValueAtScaledIndex i1
  let v2 ← sa.checkedValueAtScaledIndex i2
  some ((v2 - v1) / ((i2 - i1) / sa.last_index))

/-- The `SmoothArray::line` loop, checked: `none` on a failed
`to_usize().unwrap()` or an out-of-bounds write.  Running out of fuel
while the loop guard still holds is also `none`, so proving `isSome`
establishes that the loop exits within the given fuel. -/
def SmoothArray.checkedLineLoop (v1 v2 i1 idi max_i : ℚ) :
    ℕ → ℚ → List ℚ → Option (List ℚ)
  | 0, i, data => if i ≤ max_i then none else some data
  | fuel+1, i, data =>
    if i ≤ max_i then do
      let f := (i - i1) * idi
      let v := v1 * (1 - f) + v2 * f
      let u ← checkedRatToUsize i
      let d ← checkedSet data u v
      SmoothArray.checkedLineLoop v1 v2 i1 idi max_i fuel (i + 1) d
    else some data

/-- `SmoothArray::line`, checked. -/
def SmoothArray.checkedLine (sa : SmoothArray) (a b : ℚ × ℚ) :
    Option SmoothArray := do
  let i1 := sa.to_array_index a.1
  let i2 := sa.to_array_index b.1
  let idi := 1 / (i2 - i1)
  let max_i := max i2 (sa.len - 1)
  let d ← SmoothArray.checkedLineLoop a.2 b.2 i1 idi max_i
    (sa.data.length + 1) (⌈i1⌉ : ℚ) sa.data
  some ⟨d⟩

/-- The line-insertion pass of `LinearSpeed::new`, checked. -/
def checkedInsertLines (inverted_length : ℚ) :
    SmoothArray → List (ℚ × ℚ) → Option SmoothArray
  | table, a :: b :: rest => do
    let t ← table.checkedLine (a.1 * inverted_length, a.2)
      (b.1 * inverted_length, b.2)
    checkedInsertLines inverted_length t (b :: rest)
  | table, _ => some table

/-- `LinearSpeed::new`, checked. -/
def LinearSpeed.checkedNew (curve : CurveOps) (table_size steps_count : ℕ) :
    Option LinearSpeed := do
  let table := SmoothArray.with_steps_count table_size
  let inverted_steps : ℚ := 1 / (steps_count : ℚ)
  let r := (List.range' 1 steps_count).foldl (lsStep curve.value_at inverted_steps)
    ([(0, 0)], 0, curve.value_at 0)
  let total_length := r.2.1
  let inverted_length : ℚ := 1 / total_length
  let table ← checkedInsertLines inverted_length table r.1
  some { curve := curve, length := total_length, table := table }

/-- `LinearSpeed::tangent_at`, checked. -/
def LinearSpeed.checkedTangentAt (ls : LinearSpeed) (t : ℚ) : Option ℚ := do
  let t ← checkedClamp t 0 1
  let t ← ls.table.checkedValueAt t
  let tg ← ls.table.checkedTangentAt t
  some (ls.curve.tangent_at t * tg)

/-- `ComposedCurve::value_at` over the crate's scalar point instance,
checked: `none` models the `unwrap` and slice-index panics (including
`curves[i - 1]` on an empty curve, where the `usize` subtraction
wraps/overflows and the index is out of bounds either way). -/
def ComposedCurve.checkedValueAt (cc : ComposedCurve ℚ) (t : ℚ) :
    Option ℚ := do
  let t ← checkedClamp t 0 1
  let t := t * (cc.curves.length : ℚ)
  let i ← checkedRatToUsize (⌊t⌋ : ℚ)
  let t := ratFract t
  if i = cc.curves.length then do
    let c ← cc.curves.get? (i - 1)
    some c.end_point
  else do
    let c ← cc.curves.get? i
    some (c.value_at t)

/-- `ComposedCurve::tangent_at` over the crate's scalar point instance,
checked. -/
def ComposedCurve.checkedTangentAt (cc : ComposedCurve ℚ) (t : ℚ) :
    Option ℚ := do
  let len : ℚ := (cc.curves.length : ℚ)
  let t ← checkedClamp t 0 1
  let t := t * len
  let i ← checkedRatToUsize (⌊t⌋ : ℚ)
  let t := ratFract t
  if i = cc.curves.length then do
    let c ← cc.curves.get? (i - 1)
    some (c.tangent_at 1 * len)
  else do
    let c ← cc.curves.get? i
    some (c.tangent_at t * len)

/-- The table holding the identity samples `j / (n - 1)`: what
`LinearSpeed::new` builds for a straight line inner curve. -/
def idTable (n : ℕ) : List ℚ :=
  (List.range n).map (fun j : ℕ => (j : ℚ) / ((n : ℚ) - 1))

/-- `idTable`, packaged as a `SmoothArray`. -/
def idSA (n : ℕ) : SmoothArray := ⟨idTable n⟩

/-- Partial chord sums of the sampling loop of `LinearSpeed::new`: the
accumulated distance after `k` steps of size `inv`. -/
def chordP (c : ℚ → ℚ) (inv : ℚ) (k : ℕ) : ℚ :=
  ∑ j ∈ Finset.range k, distQ (c ((j : ℚ) * inv)) (c (((j : ℚ) + 1) * inv))

/-- The total chord length accumulated during `LinearSpeed` construction
with `s` uniform steps (spec section 4.4, steps 1-2). -/
def chordLength (c : ℚ → ℚ) (s : ℕ) : ℚ :=
  ∑ j ∈ Finset.range s, distQ (c ((j : ℚ) / (s : ℚ))) (c (((j : ℚ) + 1) / (s : ℚ)))

lemma ratTrunc_of_nonneg {q : ℚ} (h : 0 ≤ q) : ratTrunc q = (⌊q⌋ : ℚ) := by
  unfold ratTrunc
  rw [if_neg (not_lt.mpr h)]

lemma ratFract_of_nonneg {q : ℚ} (h : 0 ≤ q) : ratFract q = q - (⌊q⌋ : ℚ) := by
  unfold ratFract
  rw [ratTrunc_of_nonneg h]

lemma rclamp_of_mem {x lo hi : ℚ} (h0 : lo ≤ x) (h1 : x ≤ hi) :
    rclamp x lo hi = x := by
  unfold rclamp
  rw [max_eq_left h0, min_eq_left h1]

lemma ratToUsize_intCast (a : ℤ) : ratToUsize (a : ℚ) = a.toNat := by
  unfold ratToUsize
  rw [Int.floor_intCast]

lemma lineLoop_length (v1 v2 i1 idi max_i : ℚ) :
    ∀ (fuel : ℕ) (i : ℚ) (data : List ℚ),
      (SmoothArray.lineLoop v1 v2 i1 idi max_i fuel i data).length = data.length := by
  intro fuel
  induction fuel with
  | zero => intro i data; rfl
  | succ fuel ih =>
    intro i data
    simp only [SmoothArray.lineLoop]
    by_cases h : i ≤ max_i
    · rw [if_pos h, ih, List.length_set]
    · rw [if_neg h]

lemma lineLoop_get? (v1 v2 i1 idi max_i : ℚ) :
    ∀ (fuel : ℕ) (a : ℤ) (data : List ℚ), 0 ≤ a →
      max_i < (data.length : ℚ) →
      (⌊max_i⌋ + 1 - a).toNat ≤ fuel →
      ∀ k : ℕ,
        (SmoothArray.lineLoop v1 v2 i1 idi max_i fuel (a : ℚ) data).get? k =
          if a ≤ (k : ℤ) ∧ (k : ℚ) ≤ max_i then
            some (v1 * (1 - ((k : ℚ) - i1) * idi) + v2 * (((k : ℚ) - i1) * idi))
          else data.get? k := by
  intro fuel
  induction fuel with
  | zero =>
    intro a data ha hlen hfuel k
    have hM : ⌊max_i⌋ < a := by omega
    rw [if_neg]
    · rfl
    rintro ⟨h1, h2⟩
    have hk : (k : ℤ) ≤ ⌊max_i⌋ := Int.le_floor.mpr h2
    omega
  | succ fuel ih =>
    intro a data ha hlen hfuel k
    simp only [SmoothArray.lineLoop]
    by_cases hcond : (a : ℚ) ≤ max_i
    · rw [if_pos hcond]
      have haM : a ≤ ⌊max_i⌋ := Int.le_floor.mpr hcond
      have halen : a.toNat < data.length := by
        have : (a : ℚ) < (data.length : ℚ) := lt_of_le_of_lt hcond hlen
        have : a < (data.length : ℤ) := by exact_mod_cast this
        omega
      have hcast : (a : ℚ) + 1 = ((a + 1 : ℤ) : ℚ) := by push_cast; ring
      rw [ratToUsize_intCast, hcast,
        ih (a + 1) _ (by omega) (by rw [List.length_set]; exact hlen) (by omega) k]
      by_cases hk : (k : ℤ) = a
      · have hka : k = a.toNat := by omega
        have hkq : (k : ℚ) = (a : ℚ) := by
          rw [← hk]; push_cast; ring
        have hta : ((a.toNat : ℚ)) = (a : ℚ) := by
          exact_mod_cast Int.toNat_of_nonneg ha
        rw [if_neg (by omega), if_pos ⟨by omega, by rw [hkq]; exact hcond⟩,
          hka, List.get?_set_eq_of_lt _ halen, hta]
      · rw [List.get?_set_ne _ _ (by omega)]
        by_cases hc : a ≤ (k : ℤ) ∧ (k : ℚ) ≤ max_i
        · rw [if_pos ⟨by omega, hc.2⟩, if_pos hc]
        · rw [if_neg (by rintro ⟨h1, h2⟩; exact hc ⟨by omega, h2⟩), if_neg hc]
    · rw [if_neg hcond, if_neg]
      rintro ⟨h1, h2⟩
      have : (a : ℚ) ≤ (k : ℚ) := by exact_mod_cast h1
      exact hcond (le_trans this h2)

lemma SmoothArray.eq_of_data {x y : SmoothArray} (h : x.data = y.data) :
    x = y := by
  cases x
  cases y
  cases h
  rfl

lemma line_length (sa : SmoothArray) (a b : ℚ × ℚ) :
    (sa.line a b).data.length = sa.data.length := by
  unfold SmoothArray.line
  exact lineLoop_length ..

lemma line_get? (sa : SmoothArray) (a1 v1 b1 v2 : ℚ) (n : ℕ)
    (hlen : sa.data.length = n) (hn : 2 ≤ n) (h0 : 0 ≤ a1) (hb : b1 ≤ 1)
    (k : ℕ) :
    (sa.line (a1, v1) (b1, v2)).data.get? k =
      if ⌈a1 * ((n : ℚ) - 1)⌉ ≤ (k : ℤ) ∧
          (k : ℚ) ≤ max (b1 * ((n : ℚ) - 1)) ((n : ℚ) - 1) then
        some (v1 * (1 - ((k : ℚ) - a1 * ((n : ℚ) - 1)) *
                (1 / (b1 * ((n : ℚ) - 1) - a1 * ((n : ℚ) - 1)))) +
              v2 * (((k : ℚ) - a1 * ((n : ℚ) - 1)) *
                (1 / (b1 * ((n : ℚ) - 1) - a1 * ((n : ℚ) - 1)))))
      else sa.data.get? k := by
  subst hlen
  have hn1 : (1 : ℚ) ≤ (sa.data.length : ℚ) - 1 := by
    have : (2 : ℚ) ≤ (sa.data.length : ℚ) := by exact_mod_cast hn
    linarith
  have hmax : max (b1 * ((sa.data.length : ℚ) - 1)) ((sa.data.length : ℚ) - 1)
      = (sa.data.length : ℚ) - 1 :=
    max_eq_right (mul_le_of_le_one_left (by linarith) hb)
  have hcnn : 0 ≤ ⌈a1 * ((sa.data.length : ℚ) - 1)⌉ :=
    Int.ceil_nonneg (mul_nonneg h0 (by linarith))
  have hfloor : ⌊(sa.data.length : ℚ) - 1⌋ = (sa.data.length : ℤ) - 1 := by
    have h : ((sa.data.length : ℚ) - 1) = (((sa.data.length : ℤ) - 1 : ℤ) : ℚ) := by
      push_cast
      ring
    rw [h, Int.floor_intCast]
  have hlt : max (b1 * ((sa.data.length : ℚ) - 1)) ((sa.data.length : ℚ) - 1)
      < (sa.data.length : ℚ) := by
    rw [hmax]
    linarith
  have hfuel : (⌊max (b1 * ((sa.data.length : ℚ) - 1)) ((sa.data.length : ℚ) - 1)⌋
      + 1 - ⌈a1 * ((sa.data.length : ℚ) - 1)⌉).toNat ≤ sa.data.length + 1 := by
    rw [hmax, hfloor]
    omega
  unfold SmoothArray.line SmoothArray.to_array_index SmoothArray.last_index
    SmoothArray.len
  exact lineLoop_get? _ _ _ _ _ _ _ _ hcnn hlt hfuel k

lemma idTable_length (n : ℕ) : (idTable n).length = n := by
  unfold idTable
  rw [List.length_map, List.length_range]

lemma idTable_get? {n k : ℕ} (h : k < n) :
    (idTable n).get? k = some ((k : ℚ) / ((n : ℚ) - 1)) := by
  unfold idTable
  rw [List.get?_map, List.get?_range h]
  rfl

lemma line_diag_get? (sa : SmoothArray) (n : ℕ) (a b : ℚ)
    (hlen : sa.data.length = n) (hn : 2 ≤ n)
    (h0 : 0 ≤ a) (hab : a < b) (hb : b ≤ 1) (k : ℕ) :
    (sa.line (a, a) (b, b)).data.get? k =
      if ⌈a * ((n : ℚ) - 1)⌉ ≤ (k : ℤ) ∧ k < n then
        some ((k : ℚ) / ((n : ℚ) - 1))
      else sa.data.get? k := by
  have hn1 : (1 : ℚ) ≤ (n : ℚ) - 1 := by
    have : (2 : ℚ) ≤ (n : ℚ) := by exact_mod_cast hn
    linarith
  have hkn : ((k : ℚ) ≤ max (b * ((n : ℚ) - 1)) ((n : ℚ) - 1)) ↔ k < n := by
    rw [max_eq_right (mul_le_of_le_one_left (by linarith) hb)]
    constructor
    · intro h
      have : (k : ℚ) + 1 ≤ (n : ℚ) := by linarith
      exact_mod_cast this
    · intro h
      have : (k : ℚ) + 1 ≤ (n : ℚ) := by exact_mod_cast h
      linarith
  rw [line_get? sa a a b b n hlen hn h0 hb k]
  by_cases hc : ⌈a * ((n : ℚ) - 1)⌉ ≤ (k : ℤ) ∧ k < n
  · rw [if_pos hc, if_pos ⟨hc.1, hkn.mpr hc.2⟩]
    have hne1 : ((n : ℚ) - 1) ≠ 0 := by linarith
    have hne2 : b - a ≠ 0 := by linarith
    have hfac : b * ((n : ℚ) - 1) - a * ((n : ℚ) - 1) = (b - a) * ((n : ℚ) - 1) := by
      ring
    congr 1
    rw [hfac]
    field_simp
    ring
  · rw [if_neg hc, if_neg]
    rintro ⟨h1, h2⟩
    exact hc ⟨h1, hkn.mp h2⟩

lemma line_diag_eq_id (sa : SmoothArray) (n : ℕ) (a b : ℚ)
    (hlen : sa.data.length = n) (hn : 2 ≤ n)
    (h0 : 0 ≤ a) (hab : a < b) (hb : b ≤ 1)
    (hbelow : ∀ j : ℕ, j < n → (j : ℤ) < ⌈a * ((n : ℚ) - 1)⌉ →
      sa.data.get? j = (idTable n).get? j) :
    sa.line (a, a) (b, b) = idSA n := by
  apply SmoothArray.eq_of_data
  apply List.ext_get?
  intro k
  show (sa.line (a, a) (b, b)).data.get? k = (idTable n).get? k
  by_cases hk : k < n
  · rw [line_diag_get? sa n a b hlen hn h0 hab hb k]
    by_cases hcl : ⌈a * ((n : ℚ) - 1)⌉ ≤ (k : ℤ)
    · rw [if_pos ⟨hcl, hk⟩, idTable_get? hk]
    · rw [if_neg (by rintro ⟨h1, _⟩; exact hcl h1)]
      exact hbelow k hk (by omega)
  · rw [List.get?_eq_none.mpr, List.get?_eq_none.mpr]
    · rw [idTable_length]; omega
    · rw [line_length, hlen]; omega

lemma insertLines_id (n : ℕ) (hn : 2 ≤ n) (invLen : ℚ) :
    ∀ (ps : List (ℚ × ℚ)) (sa : SmoothArray), 2 ≤ ps.length →
      sa.data.length = n →
      (∀ p ∈ ps, p.1 * invLen = p.2 ∧ 0 ≤ p.2 ∧ p.2 ≤ 1) →
      ps.Chain' (fun x y => x.2 < y.2) →
      (∀ j : ℕ, j < n → ∀ h : ℚ × ℚ, ps.head? = some h →
        (j : ℤ) < ⌈h.2 * ((n : ℚ) - 1)⌉ → sa.data.get? j = (idTable n).get? j) →
      insertLines invLen sa ps = idSA n := by
  intro ps
  induction ps with
  | nil => intro sa hl; simp at hl
  | cons a tail ih =>
    intro sa hl hlen hgood hchain hbelow
    cases tail with
    | nil => simp at hl
    | cons b rest =>
      have hga := hgood a (by simp)
      have hgb := hgood b (by simp)
      have hab : a.2 < b.2 := (List.chain'_cons.mp hchain).1
      show insertLines invLen
        (sa.line (a.1 * invLen, a.2) (b.1 * invLen, b.2)) (b :: rest) = idSA n
      rw [hga.1, hgb.1]
      have hline : sa.line (a.2, a.2) (b.2, b.2) = idSA n :=
        line_diag_eq_id sa n a.2 b.2 hlen hn hga.2.1 hab hgb.2.2
          (fun j hj hlt => hbelow j hj a rfl hlt)
      rw [hline]
      cases rest with
      | nil => rfl
      | cons c rs =>
        exact ih (idSA n) (by simp) (idTable_length n)
          (fun p hp => hgood p (List.mem_cons_of_mem a hp))
          (List.chain'_cons.mp hchain).2
          (fun j hj h hh hlt => rfl)

lemma lsFold_spec (c : ℚ → ℚ) (inv : ℚ) :
    ∀ m : ℕ,
      (List.range' 1 m).foldl (lsStep c inv) ([((0 : ℚ), (0 : ℚ))], 0, c 0) =
        ((List.range (m + 1)).map (fun k : ℕ => (chordP c inv k, (k : ℚ) * inv)),
          chordP c inv m, c ((m : ℚ) * inv)) := by
  intro m
  induction m with
  | zero =>
    have h : List.range 1 = [0] := by decide
    simp [h, chordP]
  | succ m ih =>
    have h1 : 1 + 1 * m = m + 1 := by omega
    rw [List.range'_concat, h1, List.foldl_append, ih, List.foldl_cons,
      List.foldl_nil]
    have hch : chordP c inv (m + 1) =
        chordP c inv m + distQ (c ((m : ℚ) * inv)) (c (((m : ℚ) + 1) * inv)) :=
      Finset.sum_range_succ _ m
    unfold lsStep
    simp only [Prod.mk.injEq, Nat.cast_add, Nat.cast_one]
    refine ⟨?_, ?_, ?_⟩
    · conv_rhs => rw [List.range_succ, List.map_append]
      simp only [List.map_cons, List.map_nil, hch, Nat.cast_add, Nat.cast_one]
    · rw [hch]
    · trivial

lemma LinearSpeed_new_eq (c : CurveOps) (n s : ℕ) :
    LinearSpeed.new c n s =
      { curve := c,
        length := chordP c.value_at (1 / (s : ℚ)) s,
        table := insertLines (1 / chordP c.value_at (1 / (s : ℚ)) s)
          (SmoothArray.with_steps_count n)
          ((List.range (s + 1)).map
            (fun k : ℕ =>
              (chordP c.value_at (1 / (s : ℚ)) k, (k : ℚ) * (1 / (s : ℚ))))) } := by
  simp only [LinearSpeed.new, lsFold_spec]

lemma bezier1_curveOps_value (p0 p1 : ℚ) :
    (Bezier1.curveOps ⟨p0, p1⟩).value_at = fun t => p0 + t * (p1 - p0) := by
  funext t
  show Bezier1.value_at ⟨p0, p1⟩ t = _
  unfold Bezier1.value_at
  rw [smul_eq_mul]

lemma bezier1_curveOps_tangent (p0 p1 : ℚ) (t : ℚ) :
    (Bezier1.curveOps ⟨p0, p1⟩).tangent_at t = p1 - p0 := rfl

lemma chordP_affine (p0 p1 inv : ℚ) (hinv : 0 ≤ inv) (k : ℕ) :
    chordP (fun t => p0 + t * (p1 - p0)) inv k = (k : ℚ) * (inv * distQ p0 p1) := by
  unfold chordP
  have hterm : ∀ j : ℕ,
      distQ (p0 + ((j : ℚ) * inv) * (p1 - p0)) (p0 + (((j : ℚ) + 1) * inv) * (p1 - p0))
        = inv * distQ p0 p1 := by
    intro j
    unfold distQ
    have h : p0 + ((j : ℚ) * inv) * (p1 - p0) - (p0 + (((j : ℚ) + 1) * inv) * (p1 - p0))
        = inv * (p0 - p1) := by ring
    rw [h, abs_mul, abs_of_nonneg hinv]
  calc (∑ j ∈ Finset.range k,
        distQ (p0 + ((j : ℚ) * inv) * (p1 - p0)) (p0 + (((j : ℚ) + 1) * inv) * (p1 - p0)))
      = ∑ _j ∈ Finset.range k, inv * distQ p0 p1 :=
        Finset.sum_congr rfl (fun j _ => hterm j)
    _ = (k : ℚ) * (inv * distQ p0 p1) := by
        rw [Finset.sum_const, Finset.card_range, nsmul_eq_mul]

lemma ls_line_length (p0 p1 : ℚ) (n s : ℕ) (hs : 1 ≤ s) :
    (LinearSpeed.new (Bezier1.curveOps ⟨p0, p1⟩) n s).length = distQ p0 p1 := by
  rw [LinearSpeed_new_eq]
  show chordP (Bezier1.curveOps ⟨p0, p1⟩).value_at (1 / (s : ℚ)) s = distQ p0 p1
  rw [bezier1_curveOps_value, chordP_affine p0 p1 _ (by positivity) s]
  have hs0 : (s : ℚ) ≠ 0 := by
    have : 0 < s := hs
    positivity
  rw [← mul_assoc, mul_one_div_cancel hs0, one_mul]

lemma ls_line_table (p0 p1 : ℚ) (n s : ℕ) (hne : p0 ≠ p1) (hn : 2 ≤ n)
    (hs : 1 ≤ s) :
    (LinearSpeed.new (Bezier1.curveOps ⟨p0, p1⟩) n s).table = idSA n := by
  have hsub : p0 - p1 ≠ 0 := sub_ne_zero.mpr hne
  have hL : distQ p0 p1 ≠ 0 := by
    unfold distQ
    exact abs_ne_zero.mpr hsub
  have hs0 : (0 : ℚ) < (s : ℚ) := by exact_mod_cast hs
  have hinv : (0 : ℚ) < 1 / (s : ℚ) := by positivity
  have hch : ∀ k : ℕ,
      chordP (Bezier1.curveOps ⟨p0, p1⟩).value_at (1 / (s : ℚ)) k
        = (k : ℚ) * ((1 / (s : ℚ)) * distQ p0 p1) := by
    intro k
    rw [bezier1_curveOps_value, chordP_affine p0 p1 _ (le_of_lt hinv) k]
  have hsl : (s : ℚ) * ((1 / (s : ℚ)) * distQ p0 p1) = distQ p0 p1 := by
    rw [← mul_assoc, mul_one_div_cancel (ne_of_gt hs0), one_mul]
  rw [LinearSpeed_new_eq]
  show insertLines _ _ _ = idSA n
  simp only [hch, hsl]
  apply insertLines_id n hn (1 / distQ p0 p1)
  · rw [List.length_map, List.length_range]
    omega
  · unfold SmoothArray.with_steps_count
    exact List.length_replicate ..
  · intro p hp
    rw [List.mem_map] at hp
    obtain ⟨k, hk, rfl⟩ := hp
    have hk' : (k : ℚ) ≤ (s : ℚ) := by
      exact_mod_cast Nat.lt_succ_iff.mp (List.mem_range.mp hk)
    refine ⟨?_, by positivity, ?_⟩
    · field_simp
      ring
    · calc (k : ℚ) * (1 / (s : ℚ))
          ≤ (s : ℚ) * (1 / (s : ℚ)) :=
            mul_le_mul_of_nonneg_right hk' (le_of_lt hinv)
        _ = 1 := mul_one_div_cancel (ne_of_gt hs0)
  · apply List.Pairwise.chain'
    rw [List.pairwise_map]
    apply List.Pairwise.imp ?_ (List.pairwise_lt_range (s + 1))
    intro i j hij
    show (i : ℚ) * (1 / (s : ℚ)) < (j : ℚ) * (1 / (s : ℚ))
    exact mul_lt_mul_of_pos_right (by exact_mod_cast hij) hinv
  · intro j hj h hh hlt
    rw [List.range_succ_eq_map, List.map_cons] at hh
    simp only [List.head?_cons, Option.some.injEq] at hh
    rw [← hh] at hlt
    simp only [Nat.cast_zero, zero_mul, Int.ceil_zero] at hlt
    omega

lemma idTable_getD {n k : ℕ} (h : k < n) :
    (idTable n).getD k 0 = (k : ℚ) / ((n : ℚ) - 1) := by
  rw [List.getD_eq_get?, idTable_get? h]
  rfl

lemma idSA_last_index (n : ℕ) : (idSA n).last_index = (n : ℚ) - 1 := by
  unfold SmoothArray.last_index SmoothArray.len
  show ((idTable n).length : ℚ) - 1 = _
  rw [idTable_length]

lemma idSA_vasi (n : ℕ) (hn : 2 ≤ n) (x : ℚ) (h0 : 0 ≤ x)
    (h1 : x ≤ (n : ℚ) - 1) :
    (idSA n).value_at_scaled_index x = x / ((n : ℚ) - 1) := by
  have hn1 : (1 : ℚ) ≤ (n : ℚ) - 1 := by
    have : (2 : ℚ) ≤ (n : ℚ) := by exact_mod_cast hn
    linarith
  have hD : ((n : ℚ) - 1) ≠ 0 := by linarith
  have hfn : ⌊x⌋ ≤ (n : ℤ) - 1 := by
    have hmono := Int.floor_mono h1
    have hfl : ⌊(n : ℚ) - 1⌋ = (n : ℤ) - 1 := by
      have h : ((n : ℚ) - 1) = (((n : ℤ) - 1 : ℤ) : ℚ) := by push_cast; ring
      rw [h, Int.floor_intCast]
    rw [hfl] at hmono
    exact hmono
  have hf0 : 0 ≤ ⌊x⌋ := Int.floor_nonneg.mpr h0
  have hc0 : 0 ≤ ⌈x⌉ := Int.ceil_nonneg h0
  have hcn : ⌈x⌉ ≤ (n : ℤ) - 1 := by
    rw [Int.ceil_le]
    have h : (((n : ℤ) - 1 : ℤ) : ℚ) = ((n : ℚ) - 1) := by push_cast; ring
    rw [h]
    exact h1
  simp only [SmoothArray.value_at_scaled_index]
  rw [idSA_last_index, rclamp_of_mem h0 h1, ratFract_of_nonneg h0,
    ratToUsize_intCast, ratToUsize_intCast]
  have hgf : (idSA n).data.getD ⌊x⌋.toNat 0 = ((⌊x⌋.toNat : ℕ) : ℚ) / ((n : ℚ) - 1) :=
    idTable_getD (by omega)
  have hgc : (idSA n).data.getD ⌈x⌉.toNat 0 = ((⌈x⌉.toNat : ℕ) : ℚ) / ((n : ℚ) - 1) :=
    idTable_getD (by omega)
  have hcf : ((⌊x⌋.toNat : ℕ) : ℚ) = ((⌊x⌋ : ℤ) : ℚ) := by
    exact_mod_cast Int.toNat_of_nonneg hf0
  have hcc : ((⌈x⌉.toNat : ℕ) : ℚ) = ((⌈x⌉ : ℤ) : ℚ) := by
    exact_mod_cast Int.toNat_of_nonneg hc0
  rw [hgf, hgc, hcf, hcc]
  by_cases hint : ((⌊x⌋ : ℤ) : ℚ) = x
  · have hceil : ((⌈x⌉ : ℤ) : ℚ) = x := by
      conv_lhs => rw [← hint, Int.ceil_intCast]
      exact hint
    rw [hint, hceil]
    ring
  · have hceil : ⌈x⌉ = ⌊x⌋ + 1 := by
      have h2 : ⌊x⌋ < ⌈x⌉ :=
        Int.lt_ceil.mpr (lt_of_le_of_ne (Int.floor_le x) hint)
      have h3 : ⌈x⌉ ≤ ⌊x⌋ + 1 := Int.ceil_le_floor_add_one x
      omega
    rw [hceil]
    push_cast
    field_simp

lemma idSA_value_at (n : ℕ) (hn : 2 ≤ n) (t : ℚ) (h0 : 0 ≤ t) (h1 : t ≤ 1) :
    (idSA n).value_at t = t := by
  have hn1 : (1 : ℚ) ≤ (n : ℚ) - 1 := by
    have : (2 : ℚ) ≤ (n : ℚ) := by exact_mod_cast hn
    linarith
  unfold SmoothArray.value_at SmoothArray.to_array_index
  rw [idSA_last_index,
    idSA_vasi n hn (t * ((n : ℚ) - 1)) (mul_nonneg h0 (by linarith))
      (mul_le_of_le_one_left (by linarith) h1),
    mul_div_cancel_right₀ t (by linarith : ((n : ℚ) - 1) ≠ 0)]

lemma idSA_tangent_at (n : ℕ) (hn : 2 ≤ n) (t : ℚ) (h0 : 0 ≤ t) (h1 : t ≤ 1) :
    (idSA n).tangent_at t = 1 := by
  have hn1 : (1 : ℚ) ≤ (n : ℚ) - 1 := by
    have : (2 : ℚ) ≤ (n : ℚ) := by exact_mod_cast hn
    linarith
  have hD : ((n : ℚ) - 1) ≠ 0 := by linarith
  simp only [SmoothArray.tangent_at, SmoothArray.to_array_index]
  rw [idSA_last_index]
  have hi0 : 0 ≤ t * ((n : ℚ) - 1) := mul_nonneg h0 (by linarith)
  have hin : t * ((n : ℚ) - 1) ≤ (n : ℚ) - 1 :=
    mul_le_of_le_one_left (by linarith) h1
  rw [idSA_vasi n hn (max (t * ((n : ℚ) - 1) - 1) 0) (le_max_right _ _)
      (max_le (by linarith) (by linarith)),
    idSA_vasi n hn (min (t * ((n : ℚ) - 1) + 1) ((n : ℚ) - 1))
      (le_min (by linarith) (by linarith)) (min_le_right _ _)]
  have hlt : max (t * ((n : ℚ) - 1) - 1) 0 < min (t * ((n : ℚ) - 1) + 1) ((n : ℚ) - 1) :=
    lt_min (max_lt (by linarith) (by linarith))
      (max_lt (by linarith) (by linarith))
  have hne : min (t * ((n : ℚ) - 1) + 1) ((n : ℚ) - 1) - max (t * ((n : ℚ) - 1) - 1) 0 ≠ 0 :=
    sub_ne_zero.mpr (ne_of_gt hlt)
  rw [div_sub_div_same]
  exact div_self (div_ne_zero hne hD)

lemma ls_new_curve (c : CurveOps) (n s : ℕ) :
    (LinearSpeed.new c n s).curve = c := by
  rw [LinearSpeed_new_eq]

lemma ls_line_tangent (p0 p1 : ℚ) (n s : ℕ) (hne : p0 ≠ p1) (hn : 2 ≤ n)
    (hs : 1 ≤ s) (t : ℚ) (h0 : 0 ≤ t) (h1 : t ≤ 1) :
    (LinearSpeed.new (Bezier1.curveOps ⟨p0, p1⟩) n s).tangent_at t = p1 - p0 := by
  simp only [LinearSpeed.tangent_at]
  rw [rclamp_of_mem h0 h1, ls_line_table p0 p1 n s hne hn hs,
    idSA_value_at n hn t h0 h1, idSA_tangent_at n hn t h0 h1, ls_new_curve,
    bezier1_curveOps_tangent, mul_one]

lemma chordP_eq_chordLength (c : ℚ → ℚ) (s : ℕ) :
    chordP c (1 / (s : ℚ)) s = chordLength c s := by
  unfold chordP chordLength
  apply Finset.sum_congr rfl
  intro j _
  rw [mul_one_div, mul_one_div]

lemma chainEnd_append {P : Type} (p : P) (l : List (Bezier P)) (c : Bezier P) :
    chainEnd p (l ++ [c]) = c.end_point := by
  induction l generalizing p with
  | nil => rfl
  | cons d ds ih => exact ih _

lemma isChainFrom_append {P : Type} (p : P) (l : List (Bezier P)) (c : Bezier P)
    (hl : isChainFrom p l) (hc : c.start_point = chainEnd p l) :
    isChainFrom p (l ++ [c]) := by
  induction l generalizing p with
  | nil => exact ⟨hc, trivial⟩
  | cons d ds ih => exact ⟨hl.1, ih _ hl.2 hc⟩

lemma applyOp_inv {P : Type} [DecidableEq P] (start : P) (cc : ComposedCurve P)
    (h1 : isChainFrom start cc.curves)
    (h2 : cc.last_point = chainEnd start cc.curves) (op : PathOp P) :
    isChainFrom start (cc.applyOp op).curves ∧
      (cc.applyOp op).last_point = chainEnd start (cc.applyOp op).curves := by
  have hline : ∀ q : P, isChainFrom start (cc.line_to q).curves ∧
      (cc.line_to q).last_point = chainEnd start (cc.line_to q).curves := by
    intro q
    unfold ComposedCurve.line_to
    by_cases hq : q ≠ cc.last_point
    · rw [if_pos hq]
      exact ⟨isChainFrom_append start cc.curves _ h1 h2,
        (chainEnd_append start cc.curves
          (Bezier.C1 ⟨cc.last_point, q⟩)).symm⟩
    · rw [if_neg hq]
      exact ⟨h1, h2⟩
  cases op with
  | lineTo p => exact hline p
  | quadraticTo p1 p2 =>
    simp only [ComposedCurve.applyOp, ComposedCurve.quadratic_to]
    by_cases hq : p1 = p2 ∧ p1 = cc.last_point
    · rw [if_pos hq]
      exact ⟨h1, h2⟩
    · rw [if_neg hq]
      exact ⟨isChainFrom_append start cc.curves _ h1 h2,
        (chainEnd_append start cc.curves
          (Bezier.C2 ⟨cc.last_point, p1, p2⟩)).symm⟩
  | cubicTo p1 p2 p3 =>
    simp only [ComposedCurve.applyOp, ComposedCurve.cubic_to]
    by_cases hq : p1 = p2 ∧ p2 = p3 ∧ p1 = cc.last_point
    · rw [if_pos hq]
      exact ⟨h1, h2⟩
    · rw [if_neg hq]
      exact ⟨isChainFrom_append start cc.curves _ h1 h2,
        (chainEnd_append start cc.curves
          (Bezier.C3 ⟨cc.last_point, p1, p2, p3⟩)).symm⟩
  | closePath =>
    simp only [ComposedCurve.applyOp, ComposedCurve.close]
    cases hcs : cc.curves with
    | nil => exact ⟨h1, h2⟩
    | cons first rest => exact hline first.start_point

lemma foldl_applyOp_inv {P : Type} [DecidableEq P] (start : P) :
    ∀ (ops : List (PathOp P)) (cc : ComposedCurve P),
      isChainFrom start cc.curves →
      cc.last_point = chainEnd start cc.curves →
      isChainFrom start (ops.foldl ComposedCurve.applyOp cc).curves ∧
        (ops.foldl ComposedCurve.applyOp cc).last_point =
          chainEnd start (ops.foldl ComposedCurve.applyOp cc).curves := by
  intro ops
  induction ops with
  | nil => intro cc h1 h2; exact ⟨h1, h2⟩
  | cons op rest ih =>
    intro cc h1 h2
    have h := applyOp_inv start cc h1 h2 op
    exact ih (cc.applyOp op) h.1 h.2

lemma natCast_sub_one_floor (m : ℕ) : ⌊(m : ℚ) - 1⌋ = (m : ℤ) - 1 := by
  have h : ((m : ℚ) - 1) = (((m : ℤ) - 1 : ℤ) : ℚ) := by push_cast; ring
  rw [h, Int.floor_intCast]

lemma natCast_sub_one_ceil (m : ℕ) : ⌈(m : ℚ) - 1⌉ = (m : ℤ) - 1 := by
  have h : ((m : ℚ) - 1) = (((m : ℤ) - 1 : ℤ) : ℚ) := by push_cast; ring
  rw [h, Int.ceil_intCast]

lemma checkedRatToUsize_of_nonneg {a : ℤ} (h : 0 ≤ a) :
    checkedRatToUsize ((a : ℤ) : ℚ) = some a.toNat := by
  unfold checkedRatToUsize
  rw [if_pos (by exact_mod_cast (by omega : (-1 : ℤ) < a)), Int.floor_intCast]

lemma checkedVASI_some (sa : SmoothArray) (hlen : 1 ≤ sa.data.length)
    (i : ℚ) : (sa.checkedValueAtScaledIndex i).isSome := by
  have hq : (1 : ℚ) ≤ (sa.data.length : ℚ) := by exact_mod_cast hlen
  have hlast_eq : sa.last_index = (sa.data.length : ℚ) - 1 := rfl
  have hlast : (0 : ℚ) ≤ sa.last_index := by rw [hlast_eq]; linarith
  unfold SmoothArray.checkedValueAtScaledIndex
  rw [show checkedClamp i 0 sa.last_index = some (rclamp i 0 sa.last_index)
    from if_pos hlast]
  simp only [Option.bind_eq_bind, Option.some_bind]
  have hc0 : 0 ≤ rclamp i 0 sa.last_index := le_min (le_max_right i 0) hlast
  have hcl : rclamp i 0 sa.last_index ≤ sa.last_index := min_le_right _ _
  have hf0 : 0 ≤ ⌊rclamp i 0 sa.last_index⌋ := Int.floor_nonneg.mpr hc0
  have hfl : ⌊rclamp i 0 sa.last_index⌋ ≤ (sa.data.length : ℤ) - 1 := by
    have h := Int.floor_mono (hcl.trans_eq hlast_eq)
    rwa [natCast_sub_one_floor] at h
  have hce0 : 0 ≤ ⌈rclamp i 0 sa.last_index⌉ := Int.ceil_nonneg hc0
  have hcec : ⌈rclamp i 0 sa.last_index⌉ ≤ (sa.data.length : ℤ) - 1 := by
    have h := Int.ceil_mono (hcl.trans_eq hlast_eq)
    rwa [natCast_sub_one_ceil] at h
  rw [checkedRatToUsize_of_nonneg hf0]
  simp only [Option.some_bind]
  rw [checkedRatToUsize_of_nonneg hce0]
  simp only [Option.some_bind]
  rw [List.get?_eq_get (by omega : ⌊rclamp i 0 sa.last_index⌋.toNat < sa.data.length)]
  simp only [Option.some_bind]
  rw [List.get?_eq_get (by omega : ⌈rclamp i 0 sa.last_index⌉.toNat < sa.data.length)]
  simp only [Option.some_bind]
  rfl

lemma checkedValueAt_some (sa : SmoothArray) (hlen : 1 ≤ sa.data.length)
    (t : ℚ) : (sa.checkedValueAt t).isSome :=
  checkedVASI_some sa hlen _

lemma checkedTangentAt_some (sa : SmoothArray) (hlen : 1 ≤ sa.data.length)
    (t : ℚ) : (sa.checkedTangentAt t).isSome := by
  simp only [SmoothArray.checkedTangentAt]
  obtain ⟨w1, hw1⟩ := Option.isSome_iff_exists.mp (checkedVASI_some sa hlen
    (max (sa.to_array_index t - 1) 0))
  obtain ⟨w2, hw2⟩ := Option.isSome_iff_exists.mp (checkedVASI_some sa hlen
    (min (sa.to_array_index t + 1) sa.last_index))
  rw [hw1]
  simp only [Option.bind_eq_bind, Option.some_bind]
  rw [hw2]
  simp only [Option.some_bind]
  rfl

lemma checkedLineLoop_some (v1 v2 i1 idi max_i : ℚ) :
    ∀ (fuel : ℕ) (a : ℤ) (data : List ℚ), 0 ≤ a →
      max_i < (data.length : ℚ) →
      (⌊max_i⌋ + 1 - a).toNat ≤ fuel →
      ∃ d, SmoothArray.checkedLineLoop v1 v2 i1 idi max_i fuel (a : ℚ) data
          = some d ∧ d.length = data.length := by
  intro fuel
  induction fuel with
  | zero =>
    intro a data ha hlen hfuel
    have hgt : ¬ ((a : ℚ) ≤ max_i) := by
      intro hle
      have h := Int.le_floor.mpr hle
      omega
    exact ⟨data, by simp only [SmoothArray.checkedLineLoop]; rw [if_neg hgt], rfl⟩
  | succ fuel ih =>
    intro a data ha hlen hfuel
    simp only [SmoothArray.checkedLineLoop]
    by_cases hcond : (a : ℚ) ≤ max_i
    · rw [if_pos hcond]
      have haM : a ≤ ⌊max_i⌋ := Int.le_floor.mpr hcond
      have halen : a.toNat < data.length := by
        have h1 : (a : ℚ) < (data.length : ℚ) := lt_of_le_of_lt hcond hlen
        have h2 : a < (data.length : ℤ) := by exact_mod_cast h1
        omega
      rw [checkedRatToUsize_of_nonneg ha]
      simp only [Option.bind_eq_bind, Option.some_bind]
      rw [show ∀ v : ℚ, checkedSet data a.toNat v = some (data.set a.toNat v)
        from fun v => if_pos halen]
      simp only [Option.some_bind]
      have hcast : (a : ℚ) + 1 = ((a + 1 : ℤ) : ℚ) := by push_cast; ring
      rw [hcast]
      obtain ⟨d, hd, hdl⟩ := ih (a + 1)
        (data.set a.toNat (v1 * (1 - ((a : ℚ) - i1) * idi) + v2 * (((a : ℚ) - i1) * idi)))
        (by omega) (by rw [List.length_set]; exact hlen) (by omega)
      refine ⟨d, hd, ?_⟩
      rw [hdl, List.length_set]
    · rw [if_neg hcond]
      exact ⟨data, rfl, rfl⟩

lemma checkedLine_some (sa : SmoothArray) (pa pb : ℚ × ℚ)
    (hlen : 1 ≤ sa.data.length) (h0 : 0 ≤ pa.1) (hb : pb.1 ≤ 1) :
    ∃ d, sa.checkedLine pa pb = some d ∧ d.data.length = sa.data.length := by
  have hq : (1 : ℚ) ≤ (sa.data.length : ℚ) := by exact_mod_cast hlen
  have hL0 : (0 : ℚ) ≤ (sa.data.length : ℚ) - 1 := by linarith
  have hmax : max (pb.1 * ((sa.data.length : ℚ) - 1)) ((sa.data.length : ℚ) - 1)
      = (sa.data.length : ℚ) - 1 :=
    max_eq_right (mul_le_of_le_one_left hL0 hb)
  have hcnn : 0 ≤ ⌈pa.1 * ((sa.data.length : ℚ) - 1)⌉ :=
    Int.ceil_nonneg (mul_nonneg h0 hL0)
  simp only [SmoothArray.checkedLine, SmoothArray.to_array_index,
    SmoothArray.last_index, SmoothArray.len]
  obtain ⟨d, hd, hdl⟩ := checkedLineLoop_some pa.2 pb.2
    (pa.1 * ((sa.data.length : ℚ) - 1))
    (1 / (pb.1 * ((sa.data.length : ℚ) - 1) - pa.1 * ((sa.data.length : ℚ) - 1)))
    (max (pb.1 * ((sa.data.length : ℚ) - 1)) ((sa.data.length : ℚ) - 1))
    (sa.data.length + 1) (⌈pa.1 * ((sa.data.length : ℚ) - 1)⌉) sa.data hcnn
    (by rw [hmax]; linarith)
    (by rw [hmax, natCast_sub_one_floor]; omega)
  rw [hd]
  simp only [Option.bind_eq_bind, Option.some_bind]
  exact ⟨⟨d⟩, rfl, hdl⟩

lemma checkedInsertLines_some (invLen : ℚ) :
    ∀ (ps : List (ℚ × ℚ)) (sa : SmoothArray), 1 ≤ sa.data.length →
      (∀ p ∈ ps, 0 ≤ p.1 * invLen ∧ p.1 * invLen ≤ 1) →
      ∃ t, checkedInsertLines invLen sa ps = some t ∧
        t.data.length = sa.data.length := by
  intro ps
  induction ps with
  | nil => intro sa _ _; exact ⟨sa, rfl, rfl⟩
  | cons a tail ih =>
    intro sa hlen hgood
    cases tail with
    | nil => exact ⟨sa, rfl, rfl⟩
    | cons b rest =>
      obtain ⟨d, hd, hdl⟩ := checkedLine_some sa (a.1 * invLen, a.2)
        (b.1 * invLen, b.2) hlen (hgood a (by simp)).1 (hgood b (by simp)).2
      simp only [checkedInsertLines]
      rw [hd]
      simp only [Option.bind_eq_bind, Option.some_bind]
      obtain ⟨t, ht, htl⟩ := ih d (by omega)
        (fun p hp => hgood p (List.mem_cons_of_mem a hp))
      refine ⟨t, ht, ?_⟩
      rw [htl, hdl]

lemma chordP_nonneg (c : ℚ → ℚ) (inv : ℚ) (k : ℕ) : 0 ≤ chordP c inv k :=
  Finset.sum_nonneg (fun j _ => by unfold distQ; exact abs_nonneg _)

lemma chordP_mono (c : ℚ → ℚ) (inv : ℚ) {k l : ℕ} (h : k ≤ l) :
    chordP c inv k ≤ chordP c inv l :=
  Finset.sum_le_sum_of_subset_of_nonneg (Finset.range_subset.mpr h)
    (fun j _ _ => by unfold distQ; exact abs_nonneg _)

lemma checkedNew_some (c : CurveOps) (n s : ℕ) (hn : 1 ≤ n) :
    ∃ ls, LinearSpeed.checkedNew c n s = some ls ∧
      ls.table.data.length = n ∧ ls.curve = c := by
  simp only [LinearSpeed.checkedNew, lsFold_spec]
  have hgood : ∀ p ∈ (List.range (s + 1)).map
      (fun k : ℕ => (chordP c.value_at (1 / (s : ℚ)) k, (k : ℚ) * (1 / (s : ℚ)))),
      0 ≤ p.1 * (1 / chordP c.value_at (1 / (s : ℚ)) s) ∧
        p.1 * (1 / chordP c.value_at (1 / (s : ℚ)) s) ≤ 1 := by
    intro p hp
    rw [List.mem_map] at hp
    obtain ⟨k, hk, rfl⟩ := hp
    have hks : k ≤ s := Nat.lt_succ_iff.mp (List.mem_range.mp hk)
    have h0k := chordP_nonneg c.value_at (1 / (s : ℚ)) k
    have h0s := chordP_nonneg c.value_at (1 / (s : ℚ)) s
    have hmono := chordP_mono c.value_at (1 / (s : ℚ)) hks
    constructor
    · exact mul_nonneg h0k (one_div_nonneg.mpr h0s)
    · rcases eq_or_lt_of_le h0s with heq | hpos
      · have hz : chordP c.value_at (1 / (s : ℚ)) k = 0 :=
          le_antisymm (heq ▸ hmono) h0k
        rw [hz, zero_mul]
        norm_num
      · rw [mul_one_div]
        exact div_le_one_of_le hmono (le_of_lt hpos)
  obtain ⟨t, ht, htl⟩ := checkedInsertLines_some
    (1 / chordP c.value_at (1 / (s : ℚ)) s) _
    (SmoothArray.with_steps_count n)
    (by unfold SmoothArray.with_steps_count; rw [List.length_replicate]; omega)
    hgood
  rw [ht]
  simp only [Option.bind_eq_bind, Option.some_bind]
  refine ⟨_, rfl, ?_, rfl⟩
  rw [htl]
  unfold SmoothArray.with_steps_count
  exact List.length_replicate ..

lemma checkedLSTangent_some (c : CurveOps) (n s : ℕ) (hn : 1 ≤ n) (t : ℚ) :
    ((LinearSpeed.checkedNew c n s).bind
      (fun ls => ls.checkedTangentAt t)).isSome := by
  obtain ⟨ls, hls, hlen, _⟩ := checkedNew_some c n s hn
  rw [hls, Option.some_bind]
  unfold LinearSpeed.checkedTangentAt
  rw [show checkedClamp t 0 1 = some (rclamp t 0 1) from if_pos (by norm_num)]
  simp only [Option.bind_eq_bind, Option.some_bind]
  obtain ⟨w1, hw1⟩ := Option.isSome_iff_exists.mp
    (checkedValueAt_some ls.table (by omega) (rclamp t 0 1))
  rw [hw1]
  simp only [Option.some_bind]
  obtain ⟨w2, hw2⟩ := Option.isSome_iff_exists.mp
    (checkedTangentAt_some ls.table (by omega) w1)
  rw [hw2]
  simp only [Option.some_bind]
  rfl

lemma checkedCCValueAt_some (cc : ComposedCurve ℚ) (hne : cc.curves ≠ [])
    (t : ℚ) : (cc.checkedValueAt t).isSome := by
  have hlen : 1 ≤ cc.curves.length := List.length_pos.mpr hne
  unfold ComposedCurve.checkedValueAt
  rw [show checkedClamp t 0 1 = some (rclamp t 0 1) from if_pos (by norm_num)]
  simp only [Option.bind_eq_bind, Option.some_bind]
  have h0 : 0 ≤ rclamp t 0 1 := le_min (le_max_right t 0) (by norm_num)
  have h1 : rclamp t 0 1 ≤ 1 := min_le_right _ _
  have hx0 : 0 ≤ rclamp t 0 1 * (cc.curves.length : ℚ) :=
    mul_nonneg h0 (by positivity)
  have hxl : rclamp t 0 1 * (cc.curves.length : ℚ) ≤ (cc.curves.length : ℚ) :=
    mul_le_of_le_one_left (by positivity) h1
  have hf0 : 0 ≤ ⌊rclamp t 0 1 * (cc.curves.length : ℚ)⌋ :=
    Int.floor_nonneg.mpr hx0
  have hfl : ⌊rclamp t 0 1 * (cc.curves.length : ℚ)⌋ ≤ (cc.curves.length : ℤ) := by
    have h := Int.floor_mono hxl
    rwa [Int.floor_natCast] at h
  rw [checkedRatToUsize_of_nonneg hf0]
  simp only [Option.some_bind]
  by_cases hi : ⌊rclamp t 0 1 * (cc.curves.length : ℚ)⌋.toNat = cc.curves.length
  · rw [if_pos hi, List.get?_eq_get (by omega)]
    simp only [Option.some_bind]
    rfl
  · rw [if_neg hi, List.get?_eq_get (by omega)]
    simp only [Option.some_bind]
    rfl

lemma checkedCCTangentAt_some (cc : ComposedCurve ℚ) (hne : cc.curves ≠ [])
    (t : ℚ) : (cc.checkedTangentAt t).isSome := by
  have hlen : 1 ≤ cc.curves.length := List.length_pos.mpr hne
  unfold ComposedCurve.checkedTangentAt
  rw [show checkedClamp t 0 1 = some (rclamp t 0 1) from if_pos (by norm_num)]
  simp only [Option.bind_eq_bind, Option.some_bind]
  have h0 : 0 ≤ rclamp t 0 1 := le_min (le_max_right t 0) (by norm_num)
  have h1 : rclamp t 0 1 ≤ 1 := min_le_right _ _
  have hx0 : 0 ≤ rclamp t 0 1 * (cc.curves.length : ℚ) :=
    mul_nonneg h0 (by positivity)
  have hxl : rclamp t 0 1 * (cc.curves.length : ℚ) ≤ (cc.curves.length : ℚ) :=
    mul_le_of_le_one_left (by positivity) h1
  have hf0 : 0 ≤ ⌊rclamp t 0 1 * (cc.curves.length : ℚ)⌋ :=
    Int.floor_nonneg.mpr hx0
  have hfl : ⌊rclamp t 0 1 * (cc.curves.length : ℚ)⌋ ≤ (cc.curves.length : ℤ) := by
    have h := Int.floor_mono hxl
    rwa [Int.floor_natCast] at h
  rw [checkedRatToUsize_of_nonneg hf0]
  simp only [Option.some_bind]
  by_cases hi : ⌊rclamp t 0 1 * (cc.curves.length : ℚ)⌋.toNat = cc.curves.length
  · rw [if_pos hi, List.get?_eq_get (by omega)]
    simp only [Option.some_bind]
    rfl
  · rw [if_neg hi, List.get?_eq_get (by omega)]
    simp only [Option.some_bind]
    rfl

lemma bezier2_curveOps_value (t : ℚ) :
    (Bezier2.curveOps ⟨3, 0, 1⟩).value_at t = (1 - t) * (1 - t) * 3 + t * t := by
  show Bezier2.value_at ⟨3, 0, 1⟩ t = _
  simp only [Bezier2.value_at, smul_eq_mul]
  ring

/-- `LinearSpeed::new` with `table_size = 0` on the crate's quadratic
`(3, 0, 1)` sampled with 2 steps: the curve reaches its end point at
`t = 1/2`, so the final sampled chord has zero length and the recorded
normalized offsets end with `(1, 1/2), (1, 1)`.  The second `line`
insertion then maps both endpoints to array index `-1`, the loop entry
test `-1 ≤ max(-1, -1)` passes, and `(-1.0).to_usize().unwrap()` fails:
construction itself panics.  The checked model returns `none` there. -/
lemma checkedNew_size_zero_none :
    LinearSpeed.checkedNew (Bezier2.curveOps ⟨3, 0, 1⟩) 0 2 = none := by
  have e0 : (Bezier2.curveOps ⟨3, 0, 1⟩).value_at ((0 : ℚ) * (1 / 2)) = 3 := by
    rw [bezier2_curveOps_value]
    norm_num
  have e1 : (Bezier2.curveOps ⟨3, 0, 1⟩).value_at (((0 : ℚ) + 1) * (1 / 2)) = 1 := by
    rw [bezier2_curveOps_value]
    norm_num
  have e2 : (Bezier2.curveOps ⟨3, 0, 1⟩).value_at ((1 : ℚ) * (1 / 2)) = 1 := by
    rw [bezier2_curveOps_value]
    norm_num
  have e3 : (Bezier2.curveOps ⟨3, 0, 1⟩).value_at (((1 : ℚ) + 1) * (1 / 2)) = 1 := by
    rw [bezier2_curveOps_value]
    norm_num
  have hch0 : chordP (Bezier2.curveOps ⟨3, 0, 1⟩).value_at (1 / 2) 0 = 0 := by
    simp [chordP]
  have hch1 : chordP (Bezier2.curveOps ⟨3, 0, 1⟩).value_at (1 / 2) 1 = 2 := by
    unfold chordP
    rw [Finset.sum_range_one]
    push_cast
    rw [e0, e1]
    unfold distQ
    rw [abs_of_nonneg (by norm_num : (0 : ℚ) ≤ 3 - 1)]
    norm_num
  have hch2 : chordP (Bezier2.curveOps ⟨3, 0, 1⟩).value_at (1 / 2) 2 = 2 := by
    unfold chordP
    rw [Finset.sum_range_succ, Finset.sum_range_one]
    push_cast
    rw [e0, e1, e2, e3]
    unfold distQ
    rw [abs_of_nonneg (by norm_num : (0 : ℚ) ≤ 3 - 1),
      abs_of_nonneg (by norm_num : (0 : ℚ) ≤ 1 - 1)]
    norm_num
  have hs2 : ((2 : ℕ) : ℚ) = 2 := by norm_num
  simp only [LinearSpeed.checkedNew, lsFold_spec, hs2]
  rw [show List.range (2 + 1) = [0, 1, 2] from rfl]
  simp only [List.map_cons, List.map_nil]
  rw [hch0, hch1, hch2]
  have hline1 : ∀ x y : ℚ,
      (SmoothArray.with_steps_count 0).checkedLine (0 * (1 / 2), x) (2 * (1 / 2), y)
        = some ⟨[]⟩ := by
    intro x y
    simp only [SmoothArray.checkedLine, SmoothArray.to_array_index,
      SmoothArray.last_index, SmoothArray.len, SmoothArray.with_steps_count,
      List.replicate, List.length_nil, SmoothArray.checkedLineLoop]
    norm_num
  have hceil : ⌈(-1 : ℚ)⌉ = -1 := by
    rw [show (-1 : ℚ) = ((-1 : ℤ) : ℚ) from by norm_num]
    exact Int.ceil_intCast (-1)
  have hline2 : ∀ x y : ℚ,
      (SmoothArray.mk []).checkedLine (2 * (1 / 2), x) (2 * (1 / 2), y) = none := by
    intro x y
    simp only [SmoothArray.checkedLine, SmoothArray.to_array_index,
      SmoothArray.last_index, SmoothArray.len, List.length_nil,
      SmoothArray.checkedLineLoop, checkedRatToUsize]
    norm_num [hceil]
  simp only [checkedInsertLines]
  rw [hline1]
  simp only [Option.bind_eq_bind, Option.some_bind]
  rw [hline2]
  rfl

/-- Claim C1: for every degree-1 (straight line) segment with distinct
endpoints, wrapped in a linear-speed reparameterizer with any table size
`n ≥ 2` and any step count `s ≥ 1`, the wrapper's `tangent_at t` has
constant magnitude (distance from the zero scalar) equal to the cached
`length`, for every `t` in `[0, 1]`. -/
theorem claim_c1_linear_speed_constant_tangent (p0 p1 : ℚ) (n s : ℕ) (t : ℚ)
    (hne : p0 ≠ p1) (hn : 2 ≤ n) (hs : 1 ≤ s) (h0 : 0 ≤ t) (h1 : t ≤ 1) :
    distQ ((LinearSpeed.new (Bezier1.curveOps ⟨p0, p1⟩) n s).tangent_at t) 0
      = (LinearSpeed.new (Bezier1.curveOps ⟨p0, p1⟩) n s).length := by
  rw [ls_line_tangent p0 p1 n s hne hn hs t h0 h1, ls_line_length p0 p1 n s hs]
  unfold distQ
  rw [sub_zero, abs_sub_comm]

/-- Witness for C1 at `p0 = 0`, `p1 = 1`, `n = 2`, `s = 1`, `t = 1/2`. -/
theorem claim_c1_witness :
    ((0 : ℚ) ≠ 1 ∧ 2 ≤ 2 ∧ 1 ≤ 1 ∧ (0 : ℚ) ≤ 1/2 ∧ (1/2 : ℚ) ≤ 1) ∧
      distQ ((LinearSpeed.new (Bezier1.curveOps ⟨(0 : ℚ), 1⟩) 2 1).tangent_at (1/2)) 0
        = (LinearSpeed.new (Bezier1.curveOps ⟨(0 : ℚ), 1⟩) 2 1).length :=
  ⟨by norm_num,
    claim_c1_linear_speed_constant_tangent 0 1 2 1 (1/2) (by norm_num)
      (by norm_num) (by norm_num) (by norm_num) (by norm_num)⟩

/-- Claim C2, code evaluation at the failing input: for the quadratic
segment with scalar control points `(0, 2, 1)` the source computes
`min = p0.distance(p1) = 2`, not the first-to-last distance
`p0.distance(p2) = 1` stated by the spec, so with precision `1/2` the
relative-gap test `(3 - 2)/3 < 1/2` already passes and the estimator
returns `(2 + 3)/2 = 5/2` (for any fuel allowing at least one step).
Under the spec's `min` the gap would be `(3 - 1)/3 = 2/3 ≥ 1/2` and the
segment would have been subdivided; the returned `5/2` also exceeds the
true arc length `5/3`, violating the spec's `min ≤ length ≤ max` bound. -/
theorem claim_c2_bezier2_min_uses_second_point (fuel : ℕ) :
    Bezier2.estimate_length (fuel + 1) ⟨0, 2, 1⟩ (1/2) = 5/2 ∧
      distQ (0 : ℚ) 1 = 1 ∧ distQ (0 : ℚ) 2 = 2 := by
  refine ⟨?_, by simp [distQ], by simp [distQ]⟩
  simp only [Bezier2.estimate_length]
  norm_num [distQ]

/-- Claim C3: `line((i1, v1), (i2, v2))` on a table of size `n ≥ 2` with
`0 ≤ i1 < i2 ≤ 1` overwrites exactly the integer indices in the inclusive
range `[⌈i1*(n-1)⌉, max(i2*(n-1), n-1)]` with the value of the line
through `(i1*(n-1), v1)` and `(i2*(n-1), v2)` evaluated at that index,
leaves every index below `⌈i1*(n-1)⌉` unchanged, and preserves the
length. -/
theorem claim_c3_line_writes (data : List ℚ) (i1 v1 i2 v2 : ℚ) (n : ℕ)
    (hlen : data.length = n) (hn : 2 ≤ n) (h0 : 0 ≤ i1) (_h12 : i1 < i2)
    (h2 : i2 ≤ 1) :
    ((SmoothArray.mk data).line (i1, v1) (i2, v2)).data.length = n ∧
    ∀ k : ℕ, k < n →
      ((SmoothArray.mk data).line (i1, v1) (i2, v2)).data.get? k =
        if ⌈i1 * ((n : ℚ) - 1)⌉ ≤ (k : ℤ) ∧
            (k : ℚ) ≤ max (i2 * ((n : ℚ) - 1)) ((n : ℚ) - 1) then
          some (v1 + ((k : ℚ) - i1 * ((n : ℚ) - 1)) * (v2 - v1) /
            (i2 * ((n : ℚ) - 1) - i1 * ((n : ℚ) - 1)))
        else data.get? k := by
  constructor
  · rw [line_length]
    exact hlen
  intro k hk
  rw [line_get? ⟨data⟩ i1 v1 i2 v2 n hlen hn h0 h2 k]
  by_cases hc : ⌈i1 * ((n : ℚ) - 1)⌉ ≤ (k : ℤ) ∧
      (k : ℚ) ≤ max (i2 * ((n : ℚ) - 1)) ((n : ℚ) - 1)
  · rw [if_pos hc, if_pos hc]
    congr 1
    ring
  · rw [if_neg hc, if_neg hc]

/-- Witness for C3 on the table `[3, 4, 5]` with the line
`((1/4, 10), (1, 20))`. -/
theorem claim_c3_witness :
    (([3, 4, 5] : List ℚ).length = 3 ∧ (0 : ℚ) ≤ 1/4 ∧ (1/4 : ℚ) < 1) ∧
      (((SmoothArray.mk [3, 4, 5]).line (1/4, 10) (1, 20)).data.length = 3 ∧
      ∀ k : ℕ, k < 3 →
        ((SmoothArray.mk [3, 4, 5]).line (1/4, 10) (1, 20)).data.get? k =
          if ⌈(1/4 : ℚ) * ((3 : ℕ) - 1 : ℚ)⌉ ≤ (k : ℤ) ∧
              (k : ℚ) ≤ max ((1 : ℚ) * ((3 : ℕ) - 1 : ℚ)) (((3 : ℕ) : ℚ) - 1) then
            some (10 + ((k : ℚ) - (1/4 : ℚ) * ((3 : ℕ) - 1 : ℚ)) * (20 - 10) /
              ((1 : ℚ) * ((3 : ℕ) - 1 : ℚ) - (1/4 : ℚ) * ((3 : ℕ) - 1 : ℚ)))
          else ([3, 4, 5] : List ℚ).get? k) :=
  ⟨⟨by decide, by norm_num, by norm_num⟩,
    claim_c3_line_writes [3, 4, 5] (1/4) 10 1 20 3 (by decide) (by norm_num)
      (by norm_num) (by norm_num) (by norm_num)⟩

/-- Claim C4: `LinearSpeed::tangent_at(t)` first clamps `t` to `[0, 1]`,
then computes `t' = table.value_at(clamped t)`, and returns the inner
curve's tangent at `t'` scaled by the scalar `table.tangent_at(t')`. -/
theorem claim_c4_tangent_retiming (ls : LinearSpeed) (t : ℚ) :
    ls.tangent_at t =
      ls.curve.tangent_at (ls.table.value_at (rclamp t 0 1)) *
        ls.table.tangent_at (ls.table.value_at (rclamp t 0 1)) := rfl

/-- Claim C5: the midpoint de Casteljau subdivision used inside
`estimate_length` reproduces the two halves of the original curve
exactly, for degree 2 and degree 3, over any point type satisfying the
usual vector-space laws (an arbitrary ℚ-module). -/
theorem claim_c5_subdivision_exact {P : Type} [AddCommGroup P] [Module ℚ P]
    (b2 : Bezier2 P) (b3 : Bezier3 P) (t : ℚ) :
    ((b2.subdivide.1).value_at t = b2.value_at (t / 2) ∧
      (b2.subdivide.2).value_at t = b2.value_at ((1 + t) / 2)) ∧
    ((b3.subdivide.1).value_at t = b3.value_at (t / 2) ∧
      (b3.subdivide.2).value_at t = b3.value_at ((1 + t) / 2)) := by
  refine ⟨⟨?_, ?_⟩, ?_, ?_⟩
  · simp only [Bezier2.subdivide, Bezier2.value_at]
    module
  · simp only [Bezier2.subdivide, Bezier2.value_at]
    module
  · simp only [Bezier3.subdivide, Bezier3.value_at]
    module
  · simp only [Bezier3.subdivide, Bezier3.value_at]
    module

/-- Claim C6: whenever the control polygon length (the `max` bound) is
zero, `estimate_length` returns exactly zero, for every precision and
every fuel (the `max == 0` branch returns before the division by `max`
is reached). -/
theorem claim_c6_zero_polygon_returns_zero (fuel : ℕ) (precision : ℚ) :
    (∀ b : Bezier2 ℚ, distQ b.p0 b.p1 + distQ b.p1 b.p2 = 0 →
      Bezier2.estimate_length fuel b precision = 0) ∧
    (∀ b : Bezier3 ℚ, distQ b.p0 b.p1 + distQ b.p1 b.p2 + distQ b.p2 b.p3 = 0 →
      Bezier3.estimate_length fuel b precision = 0) := by
  constructor
  · intro b hb
    cases fuel with
    | zero => rfl
    | succ fuel =>
      simp only [Bezier2.estimate_length]
      rw [if_pos hb]
  · intro b hb
    cases fuel with
    | zero => rfl
    | succ fuel =>
      simp only [Bezier3.estimate_length]
      rw [if_pos hb]

/-- Witness for C6 on the degenerate quadratic `(5, 5, 5)`. -/
theorem claim_c6_witness :
    (distQ (5 : ℚ) 5 + distQ (5 : ℚ) 5 = 0) ∧
      Bezier2.estimate_length 1 ⟨5, 5, 5⟩ 37 = 0 :=
  ⟨by simp [distQ], (claim_c6_zero_polygon_returns_zero 1 37).1 ⟨5, 5, 5⟩ (by simp [distQ])⟩

/-- Claim C7: `LinearSpeed::estimate_length` ignores its precision
argument (any two precisions give equal results), returns the cached
`length`, and that cached value is exactly the total chord length
accumulated during construction with `s` uniform steps. -/
theorem claim_c7_estimate_length_cached (c : CurveOps) (n s : ℕ)
    (q1 q2 : ℚ) :
    (LinearSpeed.new c n s).estimate_length q1
        = (LinearSpeed.new c n s).estimate_length q2 ∧
      (LinearSpeed.new c n s).estimate_length q1
        = (LinearSpeed.new c n s).length ∧
      (LinearSpeed.new c n s).length = chordLength c.value_at s := by
  refine ⟨rfl, rfl, ?_⟩
  rw [LinearSpeed_new_eq]
  exact chordP_eq_chordLength c.value_at s

/-- Counterexample for C8 as stated: evaluating a `ComposedCurve` with
zero segments takes the `i == curves.len()` branch with `i = 0` and
indexes `curves[i - 1]` out of bounds — the checked evaluation signals
the panic (`none`) instead of producing a value. -/
theorem claim_c8_counterexample :
    ComposedCurve.checkedValueAt ⟨0, []⟩ 0 = none := by
  unfold ComposedCurve.checkedValueAt
  simp [checkedClamp, rclamp, checkedRatToUsize, ratFract, ratTrunc]

/-- Claim C8 amended: panic-freedom holds on the non-degenerate domain,
and both degeneracy guards are necessary, each exhibited on the code.
For every table size at least 1, every fallible step of linear-speed
construction, smooth-table lookups (`value_at` / `tangent_at`) and
tangent retiming succeeds for every inner curve, step count and
parameter; composed-curve evaluation succeeds for every curve with at
least one segment (the zero-segment failure is this claim's
counterexample).  Conversely, the final conjunct shows the table-size
guard cannot be dropped: with `table_size = 0`, construction itself
already fails — on the crate's quadratic `(3, 0, 1)` sampled with 2
steps the final chord is degenerate and the line loop's
`to_usize().unwrap()` is reached at index `-1`.  The remaining public
operations (`value_at`, `tangent_at`, `start_point`, `end_point`,
`estimate_length` of the Bezier segments) are total functions of their
inputs in this embedding and cannot fail. -/
theorem claim_c8_amended_no_panics :
    (∀ (c : CurveOps) (n s : ℕ), 1 ≤ n →
      (LinearSpeed.checkedNew c n s).isSome) ∧
    (∀ (c : CurveOps) (n s : ℕ) (t : ℚ), 1 ≤ n →
      ((LinearSpeed.checkedNew c n s).bind
        (fun ls => ls.checkedTangentAt t)).isSome) ∧
    (∀ (sa : SmoothArray) (t : ℚ), 1 ≤ sa.data.length →
      (sa.checkedValueAt t).isSome ∧ (sa.checkedTangentAt t).isSome) ∧
    (∀ (cc : ComposedCurve ℚ) (t : ℚ), cc.curves ≠ [] →
      (cc.checkedValueAt t).isSome ∧ (cc.checkedTangentAt t).isSome) ∧
    LinearSpeed.checkedNew (Bezier2.curveOps ⟨3, 0, 1⟩) 0 2 = none := by
  refine ⟨?_, ?_, ?_, ?_, checkedNew_size_zero_none⟩
  · intro c n s hn
    obtain ⟨ls, hls, _, _⟩ := checkedNew_some c n s hn
    rw [hls]
    rfl
  · exact fun c n s t hn => checkedLSTangent_some c n s hn t
  · exact fun sa t h => ⟨checkedValueAt_some sa h t, checkedTangentAt_some sa h t⟩
  · exact fun cc t h =>
      ⟨checkedCCValueAt_some cc h t, checkedCCTangentAt_some cc h t⟩

/-- Witness for the amended C8: a size-2 table construction and a
one-segment composed curve evaluate without failure. -/
theorem claim_c8_witness :
    ((1 : ℕ) ≤ 2 ∧ (Bezier.C1 (⟨0, 1⟩ : Bezier1 ℚ) :: []) ≠ []) ∧
      (LinearSpeed.checkedNew (Bezier1.curveOps ⟨(0 : ℚ), 1⟩) 2 1).isSome ∧
      (ComposedCurve.checkedValueAt ⟨(0 : ℚ), [Bezier.C1 ⟨0, 1⟩]⟩ (1/2)).isSome :=
  ⟨⟨by norm_num, List.cons_ne_nil _ _⟩,
    claim_c8_amended_no_panics.1 (Bezier1.curveOps ⟨(0 : ℚ), 1⟩) 2 1 (by norm_num),
    (claim_c8_amended_no_panics.2.2.2.1 ⟨(0 : ℚ), [Bezier.C1 ⟨0, 1⟩]⟩ (1/2)
      (List.cons_ne_nil _ _)).1⟩

/-- Claim C9: constructing a linear-speed wrapper twice from the same
inner curve, table size and step count yields identical lookup tables
and identical cached length (construction is a pure, deterministic
function of its inputs). -/
theorem claim_c9_construction_deterministic (c1 c2 : CurveOps)
    (n1 n2 s1 s2 : ℕ) (hc : c1 = c2) (hn : n1 = n2) (hs : s1 = s2) :
    (LinearSpeed.new c1 n1 s1).table = (LinearSpeed.new c2 n2 s2).table ∧
      (LinearSpeed.new c1 n1 s1).length = (LinearSpeed.new c2 n2 s2).length := by
  subst hc
  subst hn
  subst hs
  exact ⟨rfl, rfl⟩

/-- Witness for C9: two runs on the unit line segment agree. -/
theorem claim_c9_witness :
    (Bezier1.curveOps (⟨0, 1⟩ : Bezier1 ℚ) = Bezier1.curveOps ⟨0, 1⟩) ∧
      (LinearSpeed.new (Bezier1.curveOps ⟨(0 : ℚ), 1⟩) 4 2).table
          = (LinearSpeed.new (Bezier1.curveOps ⟨(0 : ℚ), 1⟩) 4 2).table ∧
        (LinearSpeed.new (Bezier1.curveOps ⟨(0 : ℚ), 1⟩) 4 2).length
          = (LinearSpeed.new (Bezier1.curveOps ⟨(0 : ℚ), 1⟩) 4 2).length :=
  ⟨rfl, claim_c9_construction_deterministic _ _ 4 4 2 2 rfl rfl rfl⟩

/-- Claim C10: after any sequence of `line_to`, `quadratic_to`,
`cubic_to` and `close` calls starting from `ComposedCurve::new(start)`,
the stored segments form a connected chain starting at `start` (every
appended segment begins at the `last_point` of its time, so consecutive
segments share endpoints) and `last_point` equals the end point of the
last segment, or `start` when no segment exists. -/
theorem claim_c10_connectivity_invariant {P : Type} [DecidableEq P]
    (start : P) (ops : List (PathOp P)) :
    isChainFrom start (ComposedCurve.runOps start ops).curves ∧
      (ComposedCurve.runOps start ops).last_point =
        chainEnd start (ComposedCurve.runOps start ops).curves :=
  foldl_applyOp_inv start ops (ComposedCurve.new start) True.intro rfl

end Baiser
